import Mathlib

/-!
# Verification of the quantum-framework crossover engine

Shallow embedding of the numeric core of the MIT-FutureTech quantum-framework
repository: the formula evaluators, the log-space transformer, the bisection
solver and the crossover orchestration in `src/components/Models.vue`, plus
the string-level variable substitution and qubit-mapping classification used
by `convertQubits` and `ProblemRuntimeAdvanced.vue`.

The helper module `src/store/utils` (bisectionMethod, createLoggedFunction,
createConvertedFunction, replaceVariable, classifyQubitMapping,
percentageToFraction, evaluateQubitMapping, getPhysicalQubits) is imported by
the sources but its file is not part of the source tree available here; those
definitions are modelled from the specification, as marked in their doc
comments.  Everything in `Models.vue`, `Form.vue` and
`ProblemRuntimeAdvanced.vue` is embedded from the source.

JavaScript numbers are modelled by `ℝ`; values that may be `±Infinity`
(the log-space quantities fed to the bisection solver) are modelled by
`EReal`; a thrown exception or a `NaN` result is modelled by `Option`
(`none` = failure).
-/

open scoped Classical

namespace QF

/-- An evaluation scope: the bindings for the free variables `n`, `p`, `q`
of a cost formula (the constants `e` and `pi` are built into the evaluator). -/
structure Scope where
  n : ℝ
  p : ℝ
  q : ℝ

/-- The variable names of the formula grammar. -/
inductive Var where
  | n | p | q
deriving DecidableEq

/-- Looks a variable up in a scope. -/
def Scope.lookup (σ : Scope) : Var → ℝ
  | .n => σ.n
  | .p => σ.p
  | .q => σ.q

/-- The formula grammar of the spec (section 4.1): arithmetic over the
variables `n`, `p`, `q`, the constants `e` and `pi`, and the functions
`log(x, base)`, `sqrt`, `ceil` and exponentiation. -/
inductive Expr where
  | num (v : ℚ)
  | var (x : Var)
  | constE
  | constPi
  | add (a b : Expr)
  | sub (a b : Expr)
  | mul (a b : Expr)
  | div (a b : Expr)
  | pow (a b : Expr)
  | loga (x b : Expr)
  | sqrtE (a : Expr)
  | ceilE (a : Expr)

/-- Raw-space evaluation of a formula against a scope, the reference
reference semantics of the ExpressionEvaluator in the spec (section 4.1): `none` models a
thrown `EvalError` (division by zero, log of a non-positive number, a
non-real power, the square root of a negative number).  Exponentiation is
supported for positive bases, and for a zero base with a positive exponent,
matching the arithmetic/exponential grammar of section 4.2. -/
noncomputable def rawEval : Expr → Scope → Option ℝ
  | .num v, _ => some (v : ℝ)
  | .var x, σ => some (σ.lookup x)
  | .constE, _ => some (Real.exp 1)
  | .constPi, _ => some Real.pi
  | .add a b, σ =>
      (rawEval a σ).bind fun x => (rawEval b σ).bind fun y => some (x + y)
  | .sub a b, σ =>
      (rawEval a σ).bind fun x => (rawEval b σ).bind fun y => some (x - y)
  | .mul a b, σ =>
      (rawEval a σ).bind fun x => (rawEval b σ).bind fun y => some (x * y)
  | .div a b, σ =>
      (rawEval a σ).bind fun x => (rawEval b σ).bind fun y =>
        if y = 0 then none else some (x / y)
  | .pow a b, σ =>
      (rawEval a σ).bind fun x => (rawEval b σ).bind fun y =>
        if 0 < x then some (x ^ y)
        else if x = 0 ∧ 0 < y then some 0
        else none
  | .loga x b, σ =>
      (rawEval x σ).bind fun xv => (rawEval b σ).bind fun bv =>
        if 0 < xv ∧ 0 < bv ∧ bv ≠ 1 then some (Real.logb bv xv) else none
  | .sqrtE a, σ =>
      (rawEval a σ).bind fun x => if 0 ≤ x then some (Real.sqrt x) else none
  | .ceilE a, σ =>
      (rawEval a σ).bind fun x => some (⌈x⌉ : ℝ)

/-- A numeric magnitude tracked in log space as a sign together with the
base-10 logarithm of its absolute value (spec section 4.2). -/
inductive LogVal where
  | zero
  | pos (ℓ : ℝ)
  | neg (ℓ : ℝ)

/-- The raw value represented by a log-space magnitude. -/
noncomputable def LogVal.toVal : LogVal → ℝ
  | .zero => 0
  | .pos ℓ => (10 : ℝ) ^ ℓ
  | .neg ℓ => -((10 : ℝ) ^ ℓ)

/-- Packs a raw value into its log-space representation. -/
noncomputable def toLogVal (x : ℝ) : LogVal :=
  if x = 0 then .zero
  else if 0 < x then .pos (Real.logb 10 x)
  else .neg (Real.logb 10 (-x))

/-- Log-space negation: flip the sign, keep the magnitude. -/
noncomputable def LogVal.negv : LogVal → LogVal
  | .zero => .zero
  | .pos ℓ => .neg ℓ
  | .neg ℓ => .pos ℓ

/-- Log-space addition: magnitudes of equal sign combine through the
log-sum-exp identity; magnitudes of opposite sign are recombined from the
signed difference. -/
noncomputable def LogVal.addv : LogVal → LogVal → LogVal
  | .zero, b => b
  | a, .zero => a
  | .pos ℓ₁, .pos ℓ₂ => .pos (Real.logb 10 ((10 : ℝ) ^ ℓ₁ + (10 : ℝ) ^ ℓ₂))
  | .neg ℓ₁, .neg ℓ₂ => .neg (Real.logb 10 ((10 : ℝ) ^ ℓ₁ + (10 : ℝ) ^ ℓ₂))
  | .pos ℓ₁, .neg ℓ₂ => toLogVal ((10 : ℝ) ^ ℓ₁ - (10 : ℝ) ^ ℓ₂)
  | .neg ℓ₁, .pos ℓ₂ => toLogVal ((10 : ℝ) ^ ℓ₂ - (10 : ℝ) ^ ℓ₁)

/-- Log-space multiplication: signs multiply, logged magnitudes add. -/
noncomputable def LogVal.mulv : LogVal → LogVal → LogVal
  | .zero, _ => .zero
  | _, .zero => .zero
  | .pos ℓ₁, .pos ℓ₂ => .pos (ℓ₁ + ℓ₂)
  | .neg ℓ₁, .neg ℓ₂ => .pos (ℓ₁ + ℓ₂)
  | .pos ℓ₁, .neg ℓ₂ => .neg (ℓ₁ + ℓ₂)
  | .neg ℓ₁, .pos ℓ₂ => .neg (ℓ₁ + ℓ₂)

/-- Log-space reciprocal of a nonzero magnitude (the `zero` case is junk,
guarded by the division operator). -/
noncomputable def LogVal.invv : LogVal → LogVal
  | .zero => .zero
  | .pos ℓ => .pos (-ℓ)
  | .neg ℓ => .neg (-ℓ)

/-- Modelled from the spec: `utils.createLoggedFunction` / the
LogSpaceTransformer (spec section 4.2) is not under `src/`; this is its
evaluation core.  The compiled expression tree is evaluated numerically but
each intermediate magnitude is tracked as a `(sign, log10 magnitude)` pair:
addition and subtraction combine logged magnitudes through the log-sum-exp
identity, multiplication and division add and subtract logs, a power
multiplies the log of the base by the value of the exponent, `log`, `sqrt` and `ceil`
are mapped accordingly.  `none` models an `EvalError`, with the same failure
conditions as `rawEval` (a log10 of a negative value is `NaN` in the source
and is likewise a failure here). -/
noncomputable def logEval : Expr → Scope → Option LogVal
  | .num v, _ => some (toLogVal (v : ℝ))
  | .var x, σ => some (toLogVal (σ.lookup x))
  | .constE, _ => some (toLogVal (Real.exp 1))
  | .constPi, _ => some (toLogVal Real.pi)
  | .add a b, σ =>
      (logEval a σ).bind fun av => (logEval b σ).bind fun bv => some (av.addv bv)
  | .sub a b, σ =>
      (logEval a σ).bind fun av => (logEval b σ).bind fun bv => some (av.addv bv.negv)
  | .mul a b, σ =>
      (logEval a σ).bind fun av => (logEval b σ).bind fun bv => some (av.mulv bv)
  | .div a b, σ =>
      (logEval a σ).bind fun av => (logEval b σ).bind fun bv =>
        match bv with
        | .zero => none
        | _ => some (av.mulv bv.invv)
  | .pow a b, σ =>
      (logEval a σ).bind fun av => (logEval b σ).bind fun bv =>
        match av with
        | .pos ℓ => some (.pos (ℓ * bv.toVal))
        | .zero =>
            match bv with
            | .pos _ => some .zero
            | _ => none
        | .neg _ => none
  | .loga x b, σ =>
      (logEval x σ).bind fun xv => (logEval b σ).bind fun bv =>
        match xv, bv with
        | .pos ℓx, .pos ℓb => if ℓb = 0 then none else some (toLogVal (ℓx / ℓb))
        | _, _ => none
  | .sqrtE a, σ =>
      (logEval a σ).bind fun av =>
        match av with
        | .zero => some .zero
        | .pos ℓ => some (.pos (ℓ / 2))
        | .neg _ => none
  | .ceilE a, σ =>
      (logEval a σ).bind fun av => some (toLogVal (⌈av.toVal⌉ : ℝ))

/-- The type of the logged and converted cost functions handed around by
`Models.vue`: a function of the problem size and the evaluation scope.
Values may legitimately be `-Infinity` (log of a zero cost), so the result
lives in `EReal`; `none` models a thrown exception or a `NaN` result. -/
abbrev LoggedFn := ℝ → Scope → Option EReal

/-- Modelled from the spec: `utils.createLoggedFunction` is not under
`src/`.  Per spec sections 3 and 4.2 it turns a formula into a function
returning `log10` of the value of the formula: `-Infinity` for a zero value, and
failure when the value is negative (its log10 is `NaN`) or the formula does
not evaluate. -/
noncomputable def createLoggedFunction (e : Expr) : LoggedFn :=
  fun _ σ =>
    match logEval e σ with
    | some .zero => some ⊥
    | some (.pos ℓ) => some (ℓ : EReal)
    | some (.neg _) => none
    | none => none

/-- Modelled from the spec: `utils.createConvertedFunction` is not under
`src/`.  Per spec section 3 it evaluates the raw (not log-transformed)
value, with a sentinel (`none`) on evaluation failure. -/
noncomputable def createConvertedFunction (e : Expr) : LoggedFn :=
  fun _ σ => (rawEval e σ).map fun v => (v : EReal)

/-- Modelled from the spec: `utils.percentageToFraction` is not under
`src/`.  Per spec section 6 a percentage improvement rate (percent change
per year) is converted to the multiplicative yearly fraction
`1 + rate / 100` used compoundingly in the log-space adjustments. -/
noncomputable def percentageToFraction (rate : ℝ) : ℝ :=
  1 + rate / 100

/-- The year-dependent adjustment of `getQuantumAdvantage`
(`Models.vue`, lines 28-30): the base hardware-slowdown log-factor plus the
year offset times log10 of the converted improvement rate, floored at zero.
The source returns 0 from `getQuantumAdvantage` when this quantity is not
finite, which happens exactly when the converted rate is not positive
(log10 then being `NaN` or `-Infinity`); that is modelled by `none`. -/
noncomputable def adjustmentFactor (hs qir year cy : ℝ) : Option ℝ :=
  if 0 < qir then some (max (hs + (year - cy) * Real.logb 10 qir) 0) else none

/-- The effective-processors exponent of `getQuantumAdvantage`
(`Models.vue`, lines 32-33): the base `processors` exponent plus the year
offset times log10 of the converted cost-improvement rate, floored at
zero. -/
noncomputable def effectiveProcessors (processors cir year cy : ℝ) : ℝ :=
  max (processors + (year - cy) * Real.logb 10 cir) 0

/-- The actual processor multiplier (`Models.vue`, line 34): ten to the
floored effective-processors exponent. -/
noncomputable def pValue (processors cir year cy : ℝ) : ℝ :=
  (10 : ℝ) ^ effectiveProcessors processors cir year cy

/-- The scalar advantage function `evaluate` inside `getQuantumAdvantage`
(`Models.vue`, lines 36-51): the scope binds `n` to the problem size, `p`
to the processor multiplier and `q` to the problem size itself; the result
is `classical - quantum - penalty - adjustment`, and any evaluation failure
is absorbed into `-Infinity`. -/
noncomputable def evalAdvantage (lcf lqf lpf : LoggedFn) (adj pv : ℝ) (n : ℝ) : EReal :=
  let σ : Scope := ⟨n, pv, n⟩
  match lcf n σ, lqf n σ, lpf n σ with
  | some c, some q, some pe => c - q - pe - (adj : ℝ)
  | _, _, _ => ⊥

/-- The pre-scan loop of `getQuantumAdvantage` (`Models.vue`, lines 57-65):
the lower bound is stepped up by `0.5` while it is below 100, the last
sampled value is negative and the iteration budget (50) remains, breaking
early as soon as a positive sample is found. -/
noncomputable def preScan (f : ℝ → EReal) : ℕ → ℝ → EReal → ℝ
  | 0, lb, _ => lb
  | fuel + 1, lb, lastValue =>
    if lb < 100 ∧ lastValue < 0 then
      if 0 < f (lb + 1 / 2) then lb + 1 / 2
      else preScan f fuel (lb + 1 / 2) (f (lb + 1 / 2))
    else lb

/-- Modelled from the spec: the iteration core of `utils.bisectionMethod`
(not under `src/`).  Per spec section 4.5 the interval is repeatedly
bisected, narrowing on the sign of the midpoint, until the width falls below a
fixed relative tolerance or the iteration cap (100) is reached. -/
noncomputable def bisectLoop (f : ℝ → EReal) : ℕ → ℝ → ℝ → ℝ
  | 0, lo, hi => (lo + hi) / 2
  | fuel + 1, lo, hi =>
    let mid := (lo + hi) / 2
    if hi - lo < 1e-6 * |mid| then mid
    else if 0 < f mid then bisectLoop f fuel lo mid
    else bisectLoop f fuel mid hi

/-- Modelled from the spec: `utils.bisectionMethod` is not under `src/`.
Per spec section 4.5: if `f(low) > 0` already, the lower bound is returned
immediately (the sentinel-style always case); if no sign change is observed
up to `high`, the result is `null` (`none`, the never case) rather than an
arbitrary midpoint; otherwise the bracketed interval is bisected. -/
noncomputable def bisectionMethod (f : ℝ → EReal) (lo hi : ℝ) (_label : String) : Option ℝ :=
  if 0 < f lo then some lo
  else if 0 < f hi then some (bisectLoop f 100 lo hi)
  else none

/-- The problem-size crossover orchestration `getQuantumAdvantage`
(`Models.vue`, lines 27-72), embedded from the source: compute the adjustment
(returning 0 when it is not finite), the processor multiplier and the
advantage function; return `log10(2)` when the advantage already holds at
the smallest tested size 2; otherwise pre-scan the lower bound and bisect up
to `10^100`, mapping a `null` or zero solver result to the 0 sentinel and
otherwise returning log10 of the root.  The result is an `EReal` because the
source can in principle hand `Infinity` through. -/
noncomputable def getQuantumAdvantage (lcf lqf lpf : LoggedFn)
    (hs qir processors cir year cy : ℝ) : EReal :=
  match adjustmentFactor hs qir year cy with
  | none => (0 : EReal)
  | some adj =>
    let pv := pValue processors cir year cy
    let f := evalAdvantage lcf lqf lpf adj pv
    if 0 < f 2 then ((Real.logb 10 2 : ℝ) : EReal)
    else
      match bisectionMethod f (preScan f 50 2 (f 2)) ((10 : ℝ) ^ (100 : ℕ)) "QA bisection" with
      | none => 0
      | some r => if r = 0 then 0 else ((Real.logb 10 r : ℝ) : EReal)

/-- The curve-sampling guard `safeCalc` of `calculateCurrentAdvantage`
(`Models.vue`, lines 148-153): evaluate the converted function, and absorb a
thrown exception, a non-finite value or a non-positive value into the
`null` sentinel. -/
noncomputable def safeCalc (fn : LoggedFn) (n : ℝ) (σ : Scope) : Option ℝ :=
  match fn n σ with
  | none => none
  | some v => if 0 < v ∧ v < ⊤ then some v.toReal else none

/-- A character that can be part of an identifier token. -/
def isIdentChar (c : Char) : Bool := c.isAlphanum || c = '_'

/-- Modelled from the spec: the scanning core of `utils.replaceVariable`
(not under `src/`, spec section 4.3).  The character list is scanned into
maximal identifier runs; a run equal to the variable name is replaced by the
characters of the replacement, everything else is kept verbatim, so occurrences
inside longer identifiers are untouched.  Callers pass replacements already
parenthesised (see the call sites in `Models.vue` line 78-80 and
`ProblemRuntimeAdvanced.vue` line 142-146, and the concrete example of the spec in
section 8); the replacement is inserted verbatim.  The fuel argument is the
input length. -/
def replaceVarAux (varName repl : List Char) : ℕ → List Char → List Char
  | 0, l => l
  | _ + 1, [] => []
  | fuel + 1, c :: rest =>
    if isIdentChar c then
      let run := c :: rest.takeWhile isIdentChar
      (if run = varName then repl else run) ++
        replaceVarAux varName repl fuel (rest.dropWhile isIdentChar)
    else
      c :: replaceVarAux varName repl fuel rest

/-- Modelled from the spec: `utils.replaceVariable` (spec section 4.3),
token-boundary-aware textual substitution of a variable. -/
def replaceVariable (formula varName repl : String) : String :=
  ⟨replaceVarAux varName.data repl.data formula.data.length formula.data⟩

/-- Reference decomposition of a character list into maximal identifier runs
and single non-identifier characters, used to state the whole-token
substitution property.  The fuel argument is the input length. -/
def splitRuns : ℕ → List Char → List (List Char)
  | 0, _ => []
  | _ + 1, [] => []
  | fuel + 1, c :: rest =>
    if isIdentChar c then
      (c :: rest.takeWhile isIdentChar) :: splitRuns fuel (rest.dropWhile isIdentChar)
    else
      [c] :: splitRuns fuel rest

/-- The maximal identifier runs (and non-identifier characters) of a string. -/
def tokenRuns (s : String) : List (List Char) :=
  splitRuns s.data.length s.data

/-- Tests whether the second list starts with the first. -/
def leadsWith : List Char → List Char → Bool
  | [], _ => true
  | _ :: _, [] => false
  | p :: ps, c :: cs => p == c && leadsWith ps cs

/-- Tests whether the pattern occurs somewhere in the list. -/
def hasSub (pat : List Char) : List Char → Bool
  | [] => leadsWith pat []
  | c :: rest => leadsWith pat (c :: rest) || hasSub pat rest

/-- Substring containment test on strings. -/
def strContains (s pat : String) : Bool :=
  hasSub pat.data s.data

/-- Removes the space characters of a string. -/
def stripSpaces (s : String) : String :=
  ⟨s.data.filter fun c => !(c = ' ')⟩

/-- Modelled from the spec: `utils.classifyQubitMapping` is not under
`src/`.  Per spec sections 4.4 and 9 the qubit-to-problem-size law is
classified by substring inspection of its textual form: `2^(2^q)`-shaped
mappings are double-exponential, `2^q`-shaped are exponential,
`log(q, base)`-shaped are logarithmic, a bare `q` is linear, and anything
else falls back to `general`.  The kind tags are the ones consumed by
`Models.vue` (`exp`, `doubleexp`, `log`, `linear`). -/
def classifyQubitMapping (s : String) : String :=
  let t := stripSpaces s
  if strContains t "2^(2^q)" then "doubleexp"
  else if strContains t "2^q" then "exp"
  else if strContains t "log" then "log"
  else if t = "q" then "linear"
  else "general"

/-- The `convertQubits` helper (`Models.vue`, lines 74-83), embedded from
the source: for an exponential, logarithmic or linear qubit mapping the
variable `q` in the given formula is rewritten in terms of `n`; for a
double-exponential or general mapping (and when no mapping is configured)
the expression is returned unchanged. -/
def convertQubits (qubitToProblemSize : Option String) (expression : String) : String :=
  match qubitToProblemSize with
  | none => expression
  | some qm =>
    let kind := classifyQubitMapping qm
    if kind = "exp" then replaceVariable expression "q" "(log(n, 2))"
    else if kind = "log" then replaceVariable expression "q" "(2^n)"
    else if kind = "linear" then replaceVariable expression "q" "n"
    else expression

/-- The `getLogicalQubits` helper (`Models.vue`, lines 266-272), embedded
from the source.  `logOfPhysicalQubits` stands for the roadmap
extrapolation `utils.getPhysicalQubits(year, roadmap, extrapolationType)`
(not under `src/`), which the function passes through untouched.  When the
roadmap unit is `logical` the extrapolated value is returned unchanged;
otherwise the physical-to-logical ratio adjustment, compounded by the ratio
improvement rate, is floored at `log10(3)` and subtracted. -/
noncomputable def getLogicalQubits (logOfPhysicalQubits year cy plq rir : ℝ)
    (roadmapUnit : String) : ℝ :=
  if roadmapUnit = "logical" then logOfPhysicalQubits
  else
    logOfPhysicalQubits -
      max (Real.logb 10 plq + (year - cy) * Real.logb 10 rir) (Real.logb 10 3)

/-- Validity of a year-crossover solver result as tested by
`calculateQuantumEconomicAdvantage` (`Models.vue`, lines 199-200): the
solver returned a root and the root is not the 0 sentinel (the source also
excludes `Infinity`, which an `Option ℝ` root cannot carry). -/
def validRoot (t : Option ℝ) : Prop :=
  ∃ x, t = some x ∧ x ≠ 0

/-- The year-crossover search of `calculateQuantumEconomicAdvantage`
(`Models.vue`, line 195-196), embedded from the source: the scalar year
function is bisected over the fixed range from the current year to the
year 3000. -/
noncomputable def economicTStar (g : ℝ → EReal) (cy : ℝ) : Option ℝ :=
  bisectionMethod g cy 3000 "tStar"

/-- The plotted-range radius of `calculateQuantumEconomicAdvantage`
(`Models.vue`, lines 198-211), embedded from the source: 5 years by
default, widened to bracket the latest valid crossover plus 5 years, then
capped at 100 and floored at 5. -/
noncomputable def yearRadius (tStar tCostStar : Option ℝ) (cy : ℝ) : ℝ :=
  let r : ℝ :=
    if validRoot tStar ∧ validRoot tCostStar then
      max (tStar.getD 0) (tCostStar.getD 0) - cy + 5
    else if validRoot tStar then tStar.getD 0 - cy + 5
    else if validRoot tCostStar then tCostStar.getD 0 - cy + 5
    else 5
  let r2 := if 100 < r then 100 else r
  if r2 < 5 then 5 else r2

/-! ## Correctness of the log-space representation -/

/-- A step advantage-vs-year function used to exercise the year-crossover
search: negative before year 2500, positive from 2500 on. -/
noncomputable def stepYearFn : ℝ → EReal :=
  fun y => if y < 2500 then ((-1 : ℝ) : EReal) else ((1 : ℝ) : EReal)

theorem toVal_toLogVal (x : ℝ) : (toLogVal x).toVal = x := by
  unfold toLogVal
  split_ifs with h0 hp
  · simp [LogVal.toVal, h0]
  · simpa [LogVal.toVal] using Real.rpow_logb (by norm_num) (by norm_num) hp
  · have hx : 0 < -x := by
      rcases lt_trichotomy x 0 with h | h | h
      · linarith
      · exact absurd h h0
      · exact absurd h hp
    have := Real.rpow_logb (b := 10) (x := -x) (by norm_num) (by norm_num) hx
    simp only [LogVal.toVal]
    rw [this]
    ring

theorem toVal_pos_iff (lv : LogVal) : 0 < lv.toVal ↔ ∃ ℓ, lv = .pos ℓ := by
  cases lv with
  | zero => simp [LogVal.toVal]
  | pos ℓ => simp [LogVal.toVal, Real.rpow_pos_of_pos (by norm_num : (0:ℝ) < 10)]
  | neg ℓ =>
      simp only [LogVal.toVal]
      constructor
      · intro h
        have := Real.rpow_pos_of_pos (by norm_num : (0:ℝ) < 10) ℓ
        exact absurd h (by simp; linarith)
      · rintro ⟨_, h⟩; exact absurd h (by simp)

theorem toVal_eq_zero_iff (lv : LogVal) : lv.toVal = 0 ↔ lv = .zero := by
  cases lv with
  | zero => simp [LogVal.toVal]
  | pos ℓ =>
      have := Real.rpow_pos_of_pos (by norm_num : (0:ℝ) < 10) ℓ
      simp only [LogVal.toVal]
      constructor
      · intro h; exact absurd h (by linarith)
      · intro h; exact absurd h (by simp)
  | neg ℓ =>
      have := Real.rpow_pos_of_pos (by norm_num : (0:ℝ) < 10) ℓ
      simp only [LogVal.toVal]
      constructor
      · intro h
        have : (10:ℝ) ^ ℓ = 0 := by linarith
        exact absurd this (by linarith)
      · intro h; exact absurd h (by simp)

theorem toVal_neg_iff (lv : LogVal) : lv.toVal < 0 ↔ ∃ ℓ, lv = .neg ℓ := by
  cases lv with
  | zero => simp [LogVal.toVal]
  | pos ℓ =>
      have := Real.rpow_pos_of_pos (by norm_num : (0:ℝ) < 10) ℓ
      simp only [LogVal.toVal]
      constructor
      · intro h; linarith
      · rintro ⟨_, h⟩; exact absurd h (by simp)
  | neg ℓ =>
      have := Real.rpow_pos_of_pos (by norm_num : (0:ℝ) < 10) ℓ
      simp only [LogVal.toVal]
      constructor
      · intro _; exact ⟨ℓ, rfl⟩
      · intro _; linarith

theorem toVal_negv (a : LogVal) : a.negv.toVal = -a.toVal := by
  cases a <;> simp [LogVal.negv, LogVal.toVal]

theorem toVal_addv (a b : LogVal) : (a.addv b).toVal = a.toVal + b.toVal := by
  have hten : (0:ℝ) < 10 := by norm_num
  cases a with
  | zero => cases b <;> simp [LogVal.addv, LogVal.toVal]
  | pos ℓ₁ =>
      cases b with
      | zero => simp [LogVal.addv, LogVal.toVal]
      | pos ℓ₂ =>
          have hsum : (0:ℝ) < (10 : ℝ) ^ ℓ₁ + (10 : ℝ) ^ ℓ₂ :=
            add_pos (Real.rpow_pos_of_pos hten ℓ₁) (Real.rpow_pos_of_pos hten ℓ₂)
          simp only [LogVal.addv, LogVal.toVal]
          exact Real.rpow_logb hten (by norm_num) hsum
      | neg ℓ₂ =>
          show (toLogVal ((10 : ℝ) ^ ℓ₁ - (10 : ℝ) ^ ℓ₂)).toVal = _
          rw [toVal_toLogVal]
          simp only [LogVal.toVal]
          ring
  | neg ℓ₁ =>
      cases b with
      | zero => simp [LogVal.addv, LogVal.toVal]
      | pos ℓ₂ =>
          show (toLogVal ((10 : ℝ) ^ ℓ₂ - (10 : ℝ) ^ ℓ₁)).toVal = _
          rw [toVal_toLogVal]
          simp only [LogVal.toVal]
          ring
      | neg ℓ₂ =>
          have hsum : (0:ℝ) < (10 : ℝ) ^ ℓ₁ + (10 : ℝ) ^ ℓ₂ :=
            add_pos (Real.rpow_pos_of_pos hten ℓ₁) (Real.rpow_pos_of_pos hten ℓ₂)
          simp only [LogVal.addv, LogVal.toVal]
          rw [Real.rpow_logb hten (by norm_num) hsum]
          ring

theorem toVal_mulv (a b : LogVal) : (a.mulv b).toVal = a.toVal * b.toVal := by
  have hten : (0:ℝ) ≤ 10 := by norm_num
  cases a <;> cases b <;>
    simp [LogVal.mulv, LogVal.toVal, Real.rpow_add (by norm_num : (0:ℝ) < 10)]

theorem toVal_invv (a : LogVal) : a.invv.toVal = (a.toVal)⁻¹ := by
  cases a with
  | zero => simp [LogVal.invv, LogVal.toVal]
  | pos ℓ => simp [LogVal.invv, LogVal.toVal, Real.rpow_neg (by norm_num : (0:ℝ) ≤ 10)]
  | neg ℓ =>
      simp [LogVal.invv, LogVal.toVal, Real.rpow_neg (by norm_num : (0:ℝ) ≤ 10), inv_neg]

/-- Whenever the raw evaluator produces a value, the log-space evaluator
produces a log-space magnitude representing exactly that value. -/
theorem logEval_correct : ∀ (e : Expr) (σ : Scope) (v : ℝ),
    rawEval e σ = some v → ∃ lv, logEval e σ = some lv ∧ lv.toVal = v := by
  intro e
  induction e with
  | num q =>
      intro σ v h
      simp only [rawEval, Option.some_inj] at h
      exact ⟨toLogVal (q : ℝ), by simp [logEval], by rw [toVal_toLogVal, h]⟩
  | var x =>
      intro σ v h
      simp only [rawEval, Option.some_inj] at h
      exact ⟨toLogVal (σ.lookup x), by simp [logEval], by rw [toVal_toLogVal, h]⟩
  | constE =>
      intro σ v h
      simp only [rawEval, Option.some_inj] at h
      exact ⟨toLogVal (Real.exp 1), by simp [logEval], by rw [toVal_toLogVal, h]⟩
  | constPi =>
      intro σ v h
      simp only [rawEval, Option.some_inj] at h
      exact ⟨toLogVal Real.pi, by simp [logEval], by rw [toVal_toLogVal, h]⟩
  | add a b iha ihb =>
      intro σ v h
      simp only [rawEval, Option.bind_eq_some, Option.some_inj] at h
      obtain ⟨x, hx, y, hy, hxy⟩ := h
      obtain ⟨la, hla, hva⟩ := iha σ x hx
      obtain ⟨lb, hlb, hvb⟩ := ihb σ y hy
      refine ⟨la.addv lb, ?_, ?_⟩
      · simp [logEval, hla, hlb]
      · rw [toVal_addv, hva, hvb, hxy]
  | sub a b iha ihb =>
      intro σ v h
      simp only [rawEval, Option.bind_eq_some, Option.some_inj] at h
      obtain ⟨x, hx, y, hy, hxy⟩ := h
      obtain ⟨la, hla, hva⟩ := iha σ x hx
      obtain ⟨lb, hlb, hvb⟩ := ihb σ y hy
      refine ⟨la.addv lb.negv, ?_, ?_⟩
      · simp [logEval, hla, hlb]
      · rw [toVal_addv, toVal_negv, hva, hvb, ← hxy]; ring
  | mul a b iha ihb =>
      intro σ v h
      simp only [rawEval, Option.bind_eq_some, Option.some_inj] at h
      obtain ⟨x, hx, y, hy, hxy⟩ := h
      obtain ⟨la, hla, hva⟩ := iha σ x hx
      obtain ⟨lb, hlb, hvb⟩ := ihb σ y hy
      refine ⟨la.mulv lb, ?_, ?_⟩
      · simp [logEval, hla, hlb]
      · rw [toVal_mulv, hva, hvb, hxy]
  | div a b iha ihb =>
      intro σ v h
      simp only [rawEval, Option.bind_eq_some] at h
      obtain ⟨x, hx, y, hy, hxy⟩ := h
      obtain ⟨la, hla, hva⟩ := iha σ x hx
      obtain ⟨lb, hlb, hvb⟩ := ihb σ y hy
      by_cases hy0 : y = 0
      · simp [hy0] at hxy
      · simp only [if_neg hy0, Option.some_inj] at hxy
        have hlbz : lb ≠ .zero := by
          intro hz
          refine hy0 ?_
          rw [← hvb, hz]
          simp [LogVal.toVal]
        refine ⟨la.mulv lb.invv, ?_, ?_⟩
        · cases lb with
          | zero => exact absurd rfl hlbz
          | pos ℓ => simp [logEval, hla, hlb]
          | neg ℓ => simp [logEval, hla, hlb]
        · rw [toVal_mulv, toVal_invv, hva, hvb, ← hxy, div_eq_mul_inv]
  | pow a b iha ihb =>
      intro σ v h
      simp only [rawEval, Option.bind_eq_some] at h
      obtain ⟨x, hx, y, hy, hxy⟩ := h
      obtain ⟨la, hla, hva⟩ := iha σ x hx
      obtain ⟨lb, hlb, hvb⟩ := ihb σ y hy
      by_cases hxpos : 0 < x
      · simp only [if_pos hxpos, Option.some_inj] at hxy
        obtain ⟨ℓ, hℓ⟩ := (toVal_pos_iff la).mp (hva ▸ hxpos)
        refine ⟨.pos (ℓ * y), ?_, ?_⟩
        · subst hℓ; simp [logEval, hla, hlb, hvb]
        · have hxval : x = (10 : ℝ) ^ ℓ := by rw [← hva, hℓ]; rfl
          simp only [LogVal.toVal]
          rw [Real.rpow_mul (by norm_num : (0:ℝ) ≤ 10), ← hxval, hxy]
      · by_cases hx0 : x = 0 ∧ 0 < y
        · simp only [if_neg hxpos, if_pos hx0, Option.some_inj] at hxy
          have hlaz : la = .zero := (toVal_eq_zero_iff la).mp (by rw [hva, hx0.1])
          obtain ⟨ℓb, hℓb⟩ := (toVal_pos_iff lb).mp (hvb ▸ hx0.2)
          refine ⟨.zero, ?_, ?_⟩
          · subst hlaz; subst hℓb; simp [logEval, hla, hlb]
          · simp [LogVal.toVal, ← hxy]
        · simp [if_neg hxpos, if_neg hx0] at hxy
  | loga x b iha ihb =>
      intro σ v h
      simp only [rawEval, Option.bind_eq_some] at h
      obtain ⟨xv, hx, bv, hb, hxy⟩ := h
      obtain ⟨lx, hlx, hvx⟩ := iha σ xv hx
      obtain ⟨lb, hlb, hvb⟩ := ihb σ bv hb
      by_cases hc : 0 < xv ∧ 0 < bv ∧ bv ≠ 1
      · simp only [if_pos hc, Option.some_inj] at hxy
        obtain ⟨ℓx, hℓx⟩ := (toVal_pos_iff lx).mp (hvx ▸ hc.1)
        obtain ⟨ℓb, hℓb⟩ := (toVal_pos_iff lb).mp (hvb ▸ hc.2.1)
        have hxval : xv = (10 : ℝ) ^ ℓx := by rw [← hvx, hℓx]; rfl
        have hbval : bv = (10 : ℝ) ^ ℓb := by rw [← hvb, hℓb]; rfl
        have hℓb0 : ℓb ≠ 0 := by
          intro h0
          exact hc.2.2 (by rw [hbval, h0, Real.rpow_zero])
        refine ⟨toLogVal (ℓx / ℓb), ?_, ?_⟩
        · subst hℓx; subst hℓb; simp [logEval, hlx, hlb, if_neg hℓb0]
        · rw [toVal_toLogVal, ← hxy, hxval, hbval, Real.logb,
            Real.log_rpow (by norm_num : (0:ℝ) < 10),
            Real.log_rpow (by norm_num : (0:ℝ) < 10),
            mul_comm ℓx (Real.log 10), mul_comm ℓb (Real.log 10)]
          rw [mul_div_mul_left _ _ (ne_of_gt (Real.log_pos (by norm_num)))]
      · simp [if_neg hc] at hxy
  | sqrtE a iha =>
      intro σ v h
      simp only [rawEval, Option.bind_eq_some] at h
      obtain ⟨x, hx, hxy⟩ := h
      obtain ⟨la, hla, hva⟩ := iha σ x hx
      by_cases hx0 : 0 ≤ x
      · simp only [if_pos hx0, Option.some_inj] at hxy
        rcases eq_or_lt_of_le hx0 with hz | hp
        · have hlaz : la = .zero := (toVal_eq_zero_iff la).mp (by rw [hva, ← hz])
          refine ⟨.zero, ?_, ?_⟩
          · subst hlaz; simp [logEval, hla]
          · rw [← hxy, ← hz]
            simp [LogVal.toVal]
        · obtain ⟨ℓ, hℓ⟩ := (toVal_pos_iff la).mp (hva ▸ hp)
          have hxval : x = (10 : ℝ) ^ ℓ := by rw [← hva, hℓ]; rfl
          refine ⟨.pos (ℓ / 2), ?_, ?_⟩
          · subst hℓ; simp [logEval, hla]
          · simp only [LogVal.toVal]
            rw [← hxy, hxval, Real.sqrt_eq_rpow, ← Real.rpow_mul (by norm_num : (0:ℝ) ≤ 10)]
            congr 1
            ring
      · simp [if_neg hx0] at hxy
  | ceilE a iha =>
      intro σ v h
      simp only [rawEval, Option.bind_eq_some, Option.some_inj] at h
      obtain ⟨x, hx, hxy⟩ := h
      obtain ⟨la, hla, hva⟩ := iha σ x hx
      refine ⟨toLogVal (⌈la.toVal⌉ : ℝ), ?_, ?_⟩
      · simp [logEval, hla]
      · rw [toVal_toLogVal, hva, hxy]

/-! ## Helper lemmas for concrete evaluations -/

theorem toLogVal_of_pos {x : ℝ} (h : 0 < x) : toLogVal x = .pos (Real.logb 10 x) := by
  unfold toLogVal
  rw [if_neg (ne_of_gt h), if_pos h]

theorem preScan_ge (f : ℝ → EReal) :
    ∀ (fuel : ℕ) (lb : ℝ) (lv : EReal), lb ≤ preScan f fuel lb lv := by
  intro fuel
  induction fuel with
  | zero => intro lb lv; simp [preScan]
  | succ m ih =>
      intro lb lv
      simp only [preScan]
      split_ifs with h1 h2
      · linarith
      · calc lb ≤ lb + 1 / 2 := by linarith
          _ ≤ preScan f m (lb + 1 / 2) (f (lb + 1 / 2)) := ih _ _
      · exact le_refl lb

theorem clf_num_one (x : ℝ) (σ : Scope) :
    createLoggedFunction (.num 1) x σ = some (((0 : ℝ) : EReal)) := by
  unfold createLoggedFunction
  rw [show logEval (.num 1) σ = some (.pos 0) from by
    simp only [logEval, Rat.cast_one]
    rw [toLogVal_of_pos (by norm_num : (0:ℝ) < 1)]
    simp]

theorem clf_var_n (x : ℝ) (σ : Scope) (h : 0 < σ.n) :
    createLoggedFunction (.var .n) x σ = some ((Real.logb 10 σ.n : ℝ) : EReal) := by
  unfold createLoggedFunction
  rw [show logEval (.var .n) σ = some (.pos (Real.logb 10 σ.n))
    from by simp [logEval, Scope.lookup, toLogVal_of_pos h]]

theorem clf_var_q (x : ℝ) (σ : Scope) (h : 0 < σ.q) :
    createLoggedFunction (.var .q) x σ = some ((Real.logb 10 σ.q : ℝ) : EReal) := by
  unfold createLoggedFunction
  rw [show logEval (.var .q) σ = some (.pos (Real.logb 10 σ.q))
    from by simp [logEval, Scope.lookup, toLogVal_of_pos h]]

theorem clf_pow_var_n (k : ℚ) (x : ℝ) (σ : Scope) (h : 0 < σ.n) :
    createLoggedFunction (.pow (.var .n) (.num k)) x σ =
      some ((Real.logb 10 σ.n * (k : ℝ) : ℝ) : EReal) := by
  unfold createLoggedFunction
  rw [show logEval (.pow (.var .n) (.num k)) σ =
        some (.pos (Real.logb 10 σ.n * (k : ℝ)))
    from by simp [logEval, Scope.lookup, toLogVal_of_pos h, toVal_toLogVal]]

theorem evalAdvantage_some {lcf lqf lpf : LoggedFn} {adj pv n : ℝ} {c q pe : ℝ}
    (hc : lcf n ⟨n, pv, n⟩ = some ((c : ℝ) : EReal))
    (hq : lqf n ⟨n, pv, n⟩ = some ((q : ℝ) : EReal))
    (hp : lpf n ⟨n, pv, n⟩ = some ((pe : ℝ) : EReal)) :
    evalAdvantage lcf lqf lpf adj pv n = ((c - q - pe - adj : ℝ) : EReal) := by
  simp only [evalAdvantage]
  rw [hc, hq, hp]
  norm_cast

theorem validRoot_some (x : ℝ) : validRoot (some x) ↔ x ≠ 0 := by
  simp [validRoot]

theorem dropWhile_length_le (p : Char → Bool) (l : List Char) :
    (l.dropWhile p).length ≤ l.length := by
  induction l with
  | nil => simp [List.dropWhile]
  | cons c rest ih =>
      simp only [List.dropWhile]
      split
      · exact le_trans ih (Nat.le_succ _)
      · exact le_refl _

theorem takeWhile_all (p : Char → Bool) (l : List Char) :
    (l.takeWhile p).all p = true := by
  induction l with
  | nil => simp [List.takeWhile]
  | cons c rest ih =>
      by_cases hp : p c
      · simp [List.takeWhile, hp, ih]
      · simp [List.takeWhile, hp]

theorem replaceVarAux_splitRuns (varName repl : List Char) :
    ∀ (fuel : ℕ) (l : List Char), l.length ≤ fuel →
      replaceVarAux varName repl fuel l =
        ((splitRuns fuel l).map fun run =>
          if run.all isIdentChar ∧ run = varName then repl else run).flatten := by
  intro fuel
  induction fuel with
  | zero =>
      intro l hl
      have hnil : l = [] := List.length_eq_zero.mp (Nat.le_zero.mp hl)
      subst hnil
      simp [replaceVarAux, splitRuns]
  | succ fuel ih =>
      intro l hl
      cases l with
      | nil => simp [replaceVarAux, splitRuns]
      | cons c rest =>
          simp only [replaceVarAux, splitRuns]
          by_cases hc : isIdentChar c
          · rw [if_pos hc, if_pos hc, List.map_cons, List.flatten_cons]
            have hall : ((c :: rest.takeWhile isIdentChar).all isIdentChar) = true := by
              simp [List.all_cons, hc, takeWhile_all]
            have hlen : (rest.dropWhile isIdentChar).length ≤ fuel :=
              le_trans (dropWhile_length_le _ _) (by simpa using hl)
            rw [ih _ hlen]
            congr 1
            by_cases hv : c :: rest.takeWhile isIdentChar = varName
            · rw [if_pos hv, if_pos ⟨hall, hv⟩]
            · rw [if_neg hv, if_neg (by rintro ⟨_, h⟩; exact hv h)]
          · rw [if_neg hc, if_neg hc, List.map_cons, List.flatten_cons]
            have hlen : rest.length ≤ fuel := by simpa using hl
            rw [ih _ hlen]
            have hone : (if ([c].all isIdentChar ∧ [c] = varName) then repl else [c]) = [c] := by
              rw [if_neg]
              rintro ⟨h1, _⟩
              simp [List.all_cons, hc] at h1
            rw [hone]
            rfl

/-- With classical formula `n`, quantum formula `n^2`, penalty formula `1`
and zero adjustment, the advantage function is negative at every size of at
least 2 (quantum is asymptotically worse, so classical always wins). -/
theorem quadratic_adv_neg (pv x : ℝ) (hx : 2 ≤ x) :
    evalAdvantage (createLoggedFunction (.var .n))
      (createLoggedFunction (.pow (.var .n) (.num 2)))
      (createLoggedFunction (.num 1)) 0 pv x < 0 := by
  have hx0 : (0 : ℝ) < x := by linarith
  rw [evalAdvantage_some (clf_var_n x ⟨x, pv, x⟩ hx0)
      (clf_pow_var_n 2 x ⟨x, pv, x⟩ hx0) (clf_num_one x ⟨x, pv, x⟩)]
  rw [EReal.coe_neg']
  have hlog : 0 < Real.logb 10 x :=
    Real.logb_pos (by norm_num) (by linarith)
  push_cast
  nlinarith [hlog]

/-! ## Claim theorems -/

/-- C4: for every year, the year-dependent adjustment equals the base
hardware-slowdown log-factor plus the year offset times log10 of the
converted improvement rate, floored at zero and hence never negative, and
likewise the effective-processors exponent equals the base processors value
adjusted by the year offset times log10 of the converted cost-improvement
rate, floored at zero, with the processor multiplier being ten raised to
that floored exponent. -/
theorem c4_adjustments_floored (hs qir proc cir year cy : ℝ) (hq : 0 < qir) :
    adjustmentFactor hs qir year cy =
        some (max (hs + (year - cy) * Real.logb 10 qir) 0) ∧
    (∀ a, adjustmentFactor hs qir year cy = some a → 0 ≤ a) ∧
    effectiveProcessors proc cir year cy =
        max (proc + (year - cy) * Real.logb 10 cir) 0 ∧
    0 ≤ effectiveProcessors proc cir year cy ∧
    pValue proc cir year cy =
        (10 : ℝ) ^ max (proc + (year - cy) * Real.logb 10 cir) 0 := by
  have hadj : adjustmentFactor hs qir year cy =
      some (max (hs + (year - cy) * Real.logb 10 qir) 0) := by
    unfold adjustmentFactor
    rw [if_pos hq]
  refine ⟨hadj, ?_, rfl, le_max_right _ _, rfl⟩
  intro a ha
  rw [hadj, Option.some_inj] at ha
  rw [← ha]
  exact le_max_right _ _

/-- Witness for C4 at a concrete year, slowdown and converted rates. -/
theorem c4_adjustments_floored_witness :
    adjustmentFactor 8.48 (9 / 10) 2030 2026 =
        some (max (8.48 + (2030 - 2026) * Real.logb 10 (9 / 10)) 0) ∧
    0 ≤ effectiveProcessors 5 (9 / 10) 2030 2026 :=
  ⟨(c4_adjustments_floored 8.48 (9 / 10) 5 (9 / 10) 2030 2026 (by norm_num)).1,
   (c4_adjustments_floored 8.48 (9 / 10) 5 (9 / 10) 2030 2026 (by norm_num)).2.2.2.1⟩

/-- C7: a percentage improvement rate of -10 converts to the multiplicative
fraction 9/10, and at a zero year offset (year = currentYear) the year-offset
term vanishes, so the adjustment factor equals the base hardware-slowdown
value unchanged. -/
theorem c7_zero_offset_keeps_base (hs cy : ℝ) (h : 0 ≤ hs) :
    percentageToFraction (-10) = 9 / 10 ∧
    adjustmentFactor hs (percentageToFraction (-10)) cy cy = some hs := by
  have h910 : percentageToFraction (-10) = (9 / 10 : ℝ) := by
    unfold percentageToFraction
    norm_num
  refine ⟨h910, ?_⟩
  unfold adjustmentFactor
  rw [h910, if_pos (by norm_num : (0:ℝ) < 9 / 10), sub_self, zero_mul, add_zero,
    max_eq_left h]

/-- Witness for C7 at the default hardware slowdown 8.48 and the current
year 2026. -/
theorem c7_zero_offset_keeps_base_witness :
    adjustmentFactor 8.48 (percentageToFraction (-10)) 2026 2026 = some 8.48 :=
  (c7_zero_offset_keeps_base 8.48 2026 (by norm_num)).2

/-- C10: the logical-qubit estimate floors the physical-to-logical ratio
adjustment at log10(3) — the effective ratio never drops below 3, however
the ratio-improvement rate compounds — and when the roadmap unit is
logical the extrapolated roadmap value is returned unchanged. -/
theorem c10_ratio_floor (lpq year cy plq rir : ℝ) (unit : String) :
    (unit = "logical" → getLogicalQubits lpq year cy plq rir unit = lpq) ∧
    (unit ≠ "logical" →
      ∃ adj, getLogicalQubits lpq year cy plq rir unit = lpq - adj ∧
        Real.logb 10 3 ≤ adj ∧ (3 : ℝ) ≤ (10 : ℝ) ^ adj) := by
  constructor
  · intro h
    unfold getLogicalQubits
    rw [if_pos h]
  · intro h
    unfold getLogicalQubits
    rw [if_neg h]
    refine ⟨_, rfl, le_max_right _ _, ?_⟩
    calc (3 : ℝ) = (10 : ℝ) ^ Real.logb 10 3 :=
          (Real.rpow_logb (by norm_num) (by norm_num) (by norm_num)).symm
      _ ≤ (10 : ℝ) ^ max (Real.logb 10 plq + (year - cy) * Real.logb 10 rir)
            (Real.logb 10 3) := by
          apply Real.rpow_le_rpow_left_iff (by norm_num : (1:ℝ) < 10) |>.mpr
          exact le_max_right _ _

/-- Witness for C10: a logical-unit roadmap is passed through unchanged and
a physical-unit roadmap gets an adjustment of at least log10(3). -/
theorem c10_ratio_floor_witness :
    getLogicalQubits 5 2030 2026 1000 (9 / 10) "logical" = 5 ∧
    ∃ adj, getLogicalQubits 5 2030 2026 1000 (9 / 10) "physical" = 5 - adj ∧
      Real.logb 10 3 ≤ adj ∧ (3 : ℝ) ≤ (10 : ℝ) ^ adj :=
  ⟨(c10_ratio_floor 5 2030 2026 1000 (9 / 10) "logical").1 rfl,
   (c10_ratio_floor 5 2030 2026 1000 (9 / 10) "physical").2 (by decide)⟩

/-- C5: if any of the three logged cost functions fails to evaluate at a
sample point, the advantage function absorbs the failure into `-Infinity`
instead of propagating it, so the function handed to the bisection solver
is total; likewise `safeCalc` absorbs a per-point evaluation failure into
the `null` sentinel. -/
theorem c5_failures_absorbed (lcf lqf lpf : LoggedFn) (adj pv n : ℝ)
    (fn : LoggedFn) (m : ℝ) (σ : Scope) :
    (lcf n ⟨n, pv, n⟩ = none → evalAdvantage lcf lqf lpf adj pv n = ⊥) ∧
    (lqf n ⟨n, pv, n⟩ = none → evalAdvantage lcf lqf lpf adj pv n = ⊥) ∧
    (lpf n ⟨n, pv, n⟩ = none → evalAdvantage lcf lqf lpf adj pv n = ⊥) ∧
    (fn m σ = none → safeCalc fn m σ = none) := by
  refine ⟨?_, ?_, ?_, ?_⟩
  · intro h
    simp only [evalAdvantage]
    rw [h]
  · intro h
    simp only [evalAdvantage]
    rw [h]
    cases lcf n ⟨n, pv, n⟩ <;> rfl
  · intro h
    simp only [evalAdvantage]
    rw [h]
    cases lcf n ⟨n, pv, n⟩ <;> cases lqf n ⟨n, pv, n⟩ <;> rfl
  · intro h
    unfold safeCalc
    rw [h]

/-- Witness for C5: a division by zero in the classical formula is absorbed
into `-Infinity` by the advantage function, and into `null` by `safeCalc`. -/
theorem c5_failures_absorbed_witness :
    evalAdvantage (createLoggedFunction (.div (.num 1) (.num 0)))
        (createLoggedFunction (.num 1)) (createLoggedFunction (.num 1)) 0 1 2 = ⊥ ∧
    safeCalc (createConvertedFunction (.div (.num 1) (.num 0))) 2 ⟨2, 1, 2⟩ = none := by
  have hfail : createLoggedFunction (.div (.num 1) (.num 0)) 2 ⟨2, 1, 2⟩ = none := by
    unfold createLoggedFunction
    rw [show logEval (.div (.num 1) (.num 0)) (⟨2, 1, 2⟩ : Scope) = none from by
      simp [logEval, toLogVal]]
  have hfail2 : createConvertedFunction (.div (.num 1) (.num 0)) 2 ⟨2, 1, 2⟩ = none := by
    unfold createConvertedFunction
    rw [show rawEval (.div (.num 1) (.num 0)) (⟨2, 1, 2⟩ : Scope) = none from by
      simp [rawEval]]
    rfl
  constructor
  · exact (c5_failures_absorbed (createLoggedFunction (.div (.num 1) (.num 0)))
      (createLoggedFunction (.num 1)) (createLoggedFunction (.num 1)) 0 1 2
      (createConvertedFunction (.div (.num 1) (.num 0))) 2 ⟨2, 1, 2⟩).1 hfail
  · exact (c5_failures_absorbed (createLoggedFunction (.div (.num 1) (.num 0)))
      (createLoggedFunction (.num 1)) (createLoggedFunction (.num 1)) 0 1 2
      (createConvertedFunction (.div (.num 1) (.num 0))) 2 ⟨2, 1, 2⟩).2.2.2 hfail2

/-- C8 counterexample: the replacement expression is inserted verbatim, not
wrapped in an extra pair of parentheses; with replacement `5` the claimed
wrapping would produce `(5) + pi`, but the substitution yields `5 + pi`. -/
theorem c8_counterexample :
    replaceVariable "p + pi" "p" "5" = "5 + pi" ∧
    ("5 + pi" : String) ≠ "(5) + pi" := by
  constructor
  · decide
  · decide

/-- C8 (amended): `replaceVariable` replaces exactly the whole identifier
tokens equal to the variable name by the replacement text verbatim, leaving
every other token (including identifiers that merely contain the variable
name, such as `pi` for `p`) unchanged; in particular
`replaceVariable ("p + pi", "p", "(5)")` yields `(5) + pi`. -/
theorem c8_whole_token_substitution :
    (∀ formula varName repl : String,
      replaceVariable formula varName repl =
        ⟨((tokenRuns formula).map fun run =>
            if run.all isIdentChar ∧ run = varName.data then repl.data else run).flatten⟩) ∧
    replaceVariable "p + pi" "p" "(5)" = "(5) + pi" := by
  constructor
  · intro formula varName repl
    unfold replaceVariable tokenRuns
    congr 1
    exact replaceVarAux_splitRuns varName.data repl.data formula.data.length
      formula.data (le_refl _)
  · decide

/-- C3: if the advantage function is already positive at the lower end of
the search bracket, the solver returns that lower bound immediately without
bisecting, and `getQuantumAdvantage` reports the always case as log10 of
the smallest tested size 2. -/
theorem c3_always_at_lower_bound :
    (∀ (f : ℝ → EReal) (lo hi : ℝ) (lab : String),
      0 < f lo → bisectionMethod f lo hi lab = some lo) ∧
    (∀ (lcf lqf lpf : LoggedFn) (hs qir proc cir year cy adj : ℝ),
      adjustmentFactor hs qir year cy = some adj →
      0 < evalAdvantage lcf lqf lpf adj (pValue proc cir year cy) 2 →
      getQuantumAdvantage lcf lqf lpf hs qir proc cir year cy =
        ((Real.logb 10 2 : ℝ) : EReal)) := by
  constructor
  · intro f lo hi lab h
    unfold bisectionMethod
    rw [if_pos h]
  · intro lcf lqf lpf hs qir proc cir year cy adj hadj hpos
    simp only [getQuantumAdvantage, hadj]
    rw [if_pos hpos]

/-- Witness for C3: with classical formula n^3, quantum formula n^2,
penalty 1 and zero slowdown/penalty/rate adjustments, the crossover is
reported as the always sentinel log10(2) at the tested lower bound. -/
theorem c3_always_at_lower_bound_witness :
    getQuantumAdvantage (createLoggedFunction (.pow (.var .n) (.num 3)))
      (createLoggedFunction (.pow (.var .n) (.num 2)))
      (createLoggedFunction (.num 1)) 0 1 1 1 2026 2026 =
      ((Real.logb 10 2 : ℝ) : EReal) := by
  have hadj : adjustmentFactor 0 1 2026 2026 = some 0 := by
    unfold adjustmentFactor
    rw [if_pos (by norm_num : (0:ℝ) < 1)]
    norm_num [Real.logb_one]
  have hpos : 0 < evalAdvantage (createLoggedFunction (.pow (.var .n) (.num 3)))
      (createLoggedFunction (.pow (.var .n) (.num 2)))
      (createLoggedFunction (.num 1)) 0 (pValue 1 1 2026 2026) 2 := by
    rw [evalAdvantage_some
        (clf_pow_var_n 3 2 ⟨2, pValue 1 1 2026 2026, 2⟩ (by norm_num))
        (clf_pow_var_n 2 2 ⟨2, pValue 1 1 2026 2026, 2⟩ (by norm_num))
        (clf_num_one 2 ⟨2, pValue 1 1 2026 2026, 2⟩)]
    rw [EReal.coe_pos]
    have hlog : 0 < Real.logb 10 2 := Real.logb_pos (by norm_num) (by norm_num)
    push_cast
    nlinarith [hlog]
  exact c3_always_at_lower_bound.2 _ _ _ 0 1 1 1 2026 2026 0 hadj hpos

/-- C2 counterexample: with classical formula n and quantum formula n^2 the
advantage function is negative on the whole size domain, the solver finds no
sign change and returns null, and `getQuantumAdvantage` then returns the 0
sentinel, not the Infinity sentinel the claim requires. -/
theorem c2_counterexample :
    bisectionMethod
        (evalAdvantage (createLoggedFunction (.var .n))
          (createLoggedFunction (.pow (.var .n) (.num 2)))
          (createLoggedFunction (.num 1)) 0 (pValue 1 1 2026 2026))
        (preScan
          (evalAdvantage (createLoggedFunction (.var .n))
            (createLoggedFunction (.pow (.var .n) (.num 2)))
            (createLoggedFunction (.num 1)) 0 (pValue 1 1 2026 2026)) 50 2
          (evalAdvantage (createLoggedFunction (.var .n))
            (createLoggedFunction (.pow (.var .n) (.num 2)))
            (createLoggedFunction (.num 1)) 0 (pValue 1 1 2026 2026) 2))
        ((10 : ℝ) ^ (100 : ℕ)) "QA bisection" = none ∧
    getQuantumAdvantage (createLoggedFunction (.var .n))
      (createLoggedFunction (.pow (.var .n) (.num 2)))
      (createLoggedFunction (.num 1)) 0 1 1 1 2026 2026 = 0 ∧
    (0 : EReal) ≠ (⊤ : EReal) := by
  have hadj : adjustmentFactor 0 1 2026 2026 = some 0 := by
    unfold adjustmentFactor
    rw [if_pos (by norm_num : (0:ℝ) < 1)]
    norm_num [Real.logb_one]
  have hneg : ∀ x : ℝ, 2 ≤ x →
      evalAdvantage (createLoggedFunction (.var .n))
        (createLoggedFunction (.pow (.var .n) (.num 2)))
        (createLoggedFunction (.num 1)) 0 (pValue 1 1 2026 2026) x < 0 :=
    fun x hx => quadratic_adv_neg (pValue 1 1 2026 2026) x hx
  have hlow : ¬ 0 < evalAdvantage (createLoggedFunction (.var .n))
      (createLoggedFunction (.pow (.var .n) (.num 2)))
      (createLoggedFunction (.num 1)) 0 (pValue 1 1 2026 2026) 2 :=
    not_lt.mpr (le_of_lt (hneg 2 le_rfl))
  have hnone : bisectionMethod
      (evalAdvantage (createLoggedFunction (.var .n))
        (createLoggedFunction (.pow (.var .n) (.num 2)))
        (createLoggedFunction (.num 1)) 0 (pValue 1 1 2026 2026))
      (preScan
        (evalAdvantage (createLoggedFunction (.var .n))
          (createLoggedFunction (.pow (.var .n) (.num 2)))
          (createLoggedFunction (.num 1)) 0 (pValue 1 1 2026 2026)) 50 2
        (evalAdvantage (createLoggedFunction (.var .n))
          (createLoggedFunction (.pow (.var .n) (.num 2)))
          (createLoggedFunction (.num 1)) 0 (pValue 1 1 2026 2026) 2))
      ((10 : ℝ) ^ (100 : ℕ)) "QA bisection" = none := by
    unfold bisectionMethod
    rw [if_neg (not_lt.mpr (le_of_lt (hneg _ (preScan_ge _ 50 2 _)))),
      if_neg (not_lt.mpr (le_of_lt (hneg ((10 : ℝ) ^ (100 : ℕ)) (by norm_num))))]
  refine ⟨hnone, ?_, ?_⟩
  · simp only [getQuantumAdvantage, hadj]
    rw [if_neg hlow, hnone]
  · exact (EReal.coe_zero ▸ EReal.coe_lt_top 0).ne

/-- C2 (amended): when the bisection solver finds no sign change in the
size domain and returns null, `getQuantumAdvantage` maps the null result to
the 0 sentinel — the same value used for a zero solver result — and not to
the Infinity sentinel, which is produced only when the solver itself hands
back Infinity. -/
theorem c2_null_maps_to_zero (lcf lqf lpf : LoggedFn)
    (hs qir proc cir year cy adj : ℝ)
    (hadj : adjustmentFactor hs qir year cy = some adj)
    (hlow : ¬ 0 < evalAdvantage lcf lqf lpf adj (pValue proc cir year cy) 2)
    (hnone : bisectionMethod (evalAdvantage lcf lqf lpf adj (pValue proc cir year cy))
        (preScan (evalAdvantage lcf lqf lpf adj (pValue proc cir year cy)) 50 2
          (evalAdvantage lcf lqf lpf adj (pValue proc cir year cy) 2))
        ((10 : ℝ) ^ (100 : ℕ)) "QA bisection" = none) :
    getQuantumAdvantage lcf lqf lpf hs qir proc cir year cy = 0 ∧
    getQuantumAdvantage lcf lqf lpf hs qir proc cir year cy ≠ (⊤ : EReal) := by
  have hzero : getQuantumAdvantage lcf lqf lpf hs qir proc cir year cy = 0 := by
    simp only [getQuantumAdvantage, hadj]
    rw [if_neg hlow, hnone]
  refine ⟨hzero, ?_⟩
  rw [hzero]
  exact (EReal.coe_zero ▸ EReal.coe_lt_top 0).ne

/-- Witness for C2 (amended) at the classical-n versus quantum-n^2 model. -/
theorem c2_null_maps_to_zero_witness :
    getQuantumAdvantage (createLoggedFunction (.var .n))
      (createLoggedFunction (.pow (.var .n) (.num 2)))
      (createLoggedFunction (.num 1)) 0 1 1 1 2026 2026 = 0 ∧
    getQuantumAdvantage (createLoggedFunction (.var .n))
      (createLoggedFunction (.pow (.var .n) (.num 2)))
      (createLoggedFunction (.num 1)) 0 1 1 1 2026 2026 ≠ (⊤ : EReal) := by
  have hadj : adjustmentFactor 0 1 2026 2026 = some 0 := by
    unfold adjustmentFactor
    rw [if_pos (by norm_num : (0:ℝ) < 1)]
    norm_num [Real.logb_one]
  have hneg : ∀ x : ℝ, 2 ≤ x →
      evalAdvantage (createLoggedFunction (.var .n))
        (createLoggedFunction (.pow (.var .n) (.num 2)))
        (createLoggedFunction (.num 1)) 0 (pValue 1 1 2026 2026) x < 0 :=
    fun x hx => quadratic_adv_neg (pValue 1 1 2026 2026) x hx
  refine c2_null_maps_to_zero _ _ _ 0 1 1 1 2026 2026 0 hadj
    (not_lt.mpr (le_of_lt (hneg 2 le_rfl))) ?_
  unfold bisectionMethod
  rw [if_neg (not_lt.mpr (le_of_lt (hneg _ (preScan_ge _ 50 2 _)))),
    if_neg (not_lt.mpr (le_of_lt (hneg ((10 : ℝ) ^ (100 : ℕ)) (by norm_num))))]

/-- C9: for a qubit mapping classified as double-exponential or general,
`convertQubits` leaves the formula unchanged (so `q` stays in the penalty
or work formula), and the evaluation scope of the advantage function binds
`q` to the problem size `n` itself, so a remaining `q` is silently
evaluated at the value `n`. -/
theorem c9_q_bound_to_n (qm expr : String) (adj pv n : ℝ)
    (hkind : classifyQubitMapping qm = "doubleexp" ∨
      classifyQubitMapping qm = "general")
    (hn : 0 < n) :
    convertQubits (some qm) expr = expr ∧
    evalAdvantage (createLoggedFunction (.num 1)) (createLoggedFunction (.var .q))
        (createLoggedFunction (.num 1)) adj pv n =
      ((0 - Real.logb 10 n - 0 - adj : ℝ) : EReal) := by
  constructor
  · rcases hkind with h | h <;> simp [convertQubits, h]
  · rw [evalAdvantage_some (clf_num_one n ⟨n, pv, n⟩)
      (clf_var_q n ⟨n, pv, n⟩ hn) (clf_num_one n ⟨n, pv, n⟩)]

/-- Witness for C9 at the double-exponential mapping `2^(2^q)` and problem
size 5. -/
theorem c9_q_bound_to_n_witness :
    convertQubits (some "2^(2^q)") "q^2 + 1" = "q^2 + 1" ∧
    evalAdvantage (createLoggedFunction (.num 1)) (createLoggedFunction (.var .q))
        (createLoggedFunction (.num 1)) 0 1 5 =
      ((0 - Real.logb 10 5 - 0 - 0 : ℝ) : EReal) :=
  c9_q_bound_to_n "2^(2^q)" "q^2 + 1" 0 1 5 (Or.inl (by decide)) (by norm_num)

/-- C6 counterexample: an advantage-vs-year function whose only sign change
is at year 2500 — outside every adaptively-widened radius, which is capped
at 100 years — is still assigned a year crossover by the search of the source,
because the search bisects the fixed range up to year 3000; a search over
the claimed radius-capped range would find no sign change and report null. -/
theorem c6_counterexample :
    economicTStar stepYearFn 2026 ≠ none ∧
    bisectionMethod stepYearFn 2026 (2026 + 100) "tStar" = none := by
  have hlt : ∀ y : ℝ, y < 2500 → stepYearFn y = ((-1 : ℝ) : EReal) := by
    intro y hy
    unfold stepYearFn
    rw [if_pos hy]
  have hge : stepYearFn 3000 = ((1 : ℝ) : EReal) := by
    unfold stepYearFn
    rw [if_neg (by norm_num : ¬ (3000 : ℝ) < 2500)]
  have hneg1 : ¬ (0 : EReal) < ((-1 : ℝ) : EReal) := by
    rw [show ((0 : EReal) = ((0 : ℝ) : EReal)) from rfl, EReal.coe_lt_coe_iff]
    norm_num
  constructor
  · unfold economicTStar bisectionMethod
    rw [hlt 2026 (by norm_num), hge, if_neg hneg1,
      if_pos (by rw [show ((0 : EReal) = ((0 : ℝ) : EReal)) from rfl,
        EReal.coe_lt_coe_iff]; norm_num)]
    simp
  · unfold bisectionMethod
    rw [hlt 2026 (by norm_num), hlt (2026 + 100) (by norm_num), if_neg hneg1,
      if_neg hneg1]

/-- C6 (amended): the year crossover itself is found by bisecting the fixed
range from the current year to the year 3000; the adaptively widened radius
— the distance to the latest valid crossover plus 5 years, capped at 100
and floored at 5 — only sets the sampled plotting range. -/
theorem c6_fixed_range_and_radius :
    (∀ (g : ℝ → EReal) (cy : ℝ), economicTStar g cy = bisectionMethod g cy 3000 "tStar") ∧
    (∀ (t tc : Option ℝ) (cy : ℝ), 5 ≤ yearRadius t tc cy ∧ yearRadius t tc cy ≤ 100) ∧
    (∀ (x xc cy : ℝ), x ≠ 0 → xc ≠ 0 →
      yearRadius (some x) (some xc) cy = max 5 (min 100 (max x xc - cy + 5))) := by
  have hclamp : ∀ R : ℝ,
      (if (if 100 < R then (100 : ℝ) else R) < 5 then (5 : ℝ)
        else if 100 < R then (100 : ℝ) else R) = max 5 (min 100 R) := by
    intro R
    rcases lt_or_le 100 R with h1 | h1
    · rw [if_pos h1, if_neg (by norm_num : ¬ (100 : ℝ) < 5),
        min_eq_left h1.le, max_eq_right (by norm_num : (5 : ℝ) ≤ 100)]
    · rw [if_neg (not_lt.mpr h1), min_eq_right h1]
      rcases lt_or_le R 5 with h2 | h2
      · rw [if_pos h2, max_eq_left h2.le]
      · rw [if_neg (not_lt.mpr h2), max_eq_right h2]
  refine ⟨fun g cy => rfl, ?_, ?_⟩
  · intro t tc cy
    simp only [yearRadius]
    constructor <;> (split_ifs <;> linarith)
  · intro x xc cy hx hxc
    simp only [yearRadius]
    rw [if_pos (show validRoot (some x) ∧ validRoot (some xc) from
      ⟨(validRoot_some x).mpr hx, (validRoot_some xc).mpr hxc⟩)]
    simp only [Option.getD_some]
    exact hclamp _

/-- Witness for C6 (amended) at two concrete valid crossovers. -/
theorem c6_fixed_range_and_radius_witness :
    yearRadius (some 2060) (some 2070) 2026 =
      max 5 (min 100 (max (2060 : ℝ) 2070 - 2026 + 5)) :=
  c6_fixed_range_and_radius.2.2 2060 2070 2026 (by norm_num) (by norm_num)

/-- C1: for every formula and scope at which the formula evaluates in raw
space to a finite positive value v, the log-space function built from the
formula returns a value g with 10^g exactly equal to v — in particular
within relative tolerance 1e-9; and a formula such as 10^400, whose raw
value exceeds the double-precision overflow threshold of about 1.8e308,
still receives the finite log10 value 400. -/
theorem c1_logspace_roundtrip :
    (∀ (e : Expr) (σ : Scope) (v x : ℝ), rawEval e σ = some v → 0 < v →
      ∃ g : ℝ, createLoggedFunction e x σ = some ((g : ℝ) : EReal) ∧
        (10 : ℝ) ^ g = v ∧ |(10 : ℝ) ^ g - v| ≤ 1e-9 * v) ∧
    (rawEval (.pow (.num 10) (.num 400)) ⟨1, 1, 1⟩ = some ((10 : ℝ) ^ (400 : ℝ)) ∧
      (1.8e308 : ℝ) < (10 : ℝ) ^ (400 : ℝ) ∧
      createLoggedFunction (.pow (.num 10) (.num 400)) 0 ⟨1, 1, 1⟩ =
        some ((400 : ℝ) : EReal)) := by
  constructor
  · intro e σ v x hraw hv
    obtain ⟨lv, hlv, hval⟩ := logEval_correct e σ v hraw
    obtain ⟨ℓ, hℓ⟩ := (toVal_pos_iff lv).mp (hval ▸ hv)
    have hg : (10 : ℝ) ^ ℓ = v := by
      rw [show ((10 : ℝ) ^ ℓ = lv.toVal) from by rw [hℓ]; rfl, hval]
    refine ⟨ℓ, ?_, hg, ?_⟩
    · unfold createLoggedFunction
      rw [hlv, hℓ]
    · rw [hg, sub_self, abs_zero]
      have := mul_nonneg (by norm_num : (0:ℝ) ≤ 1e-9) hv.le
      linarith
  · refine ⟨?_, ?_, ?_⟩
    · norm_num [rawEval]
    · rw [show ((400 : ℝ) = ((400 : ℕ) : ℝ)) from by norm_num, Real.rpow_natCast]
      norm_num
    · unfold createLoggedFunction
      rw [show logEval (.pow (.num 10) (.num 400)) (⟨1, 1, 1⟩ : Scope) =
          some (.pos 400) from by
        have h10 : toLogVal (10 : ℝ) = .pos 1 := by
          rw [toLogVal_of_pos (by norm_num : (0:ℝ) < 10),
            Real.logb_self_eq_one (by norm_num : (1:ℝ) < 10)]
        simp [logEval, h10, toVal_toLogVal]]

/-- Witness for C1 at the constant formula 7 evaluated in the unit scope. -/
theorem c1_logspace_roundtrip_witness :
    (0 : ℝ) < 7 ∧
    ∃ g : ℝ, createLoggedFunction (.num 7) 0 ⟨1, 1, 1⟩ = some ((g : ℝ) : EReal) ∧
      (10 : ℝ) ^ g = 7 ∧ |(10 : ℝ) ^ g - 7| ≤ 1e-9 * 7 :=
  ⟨by norm_num,
   c1_logspace_roundtrip.1 (.num 7) ⟨1, 1, 1⟩ 7 0 (by norm_num [rawEval]) (by norm_num)⟩

end QF
